import Mathlib

/-!
Verification of the datasense frontend specification.

This file gives a shallow embedding of the autocomplete / tag-insertion
logic of the chat composer (src/frontend/src/components/Conversation/
ExpandingInput.tsx), the finalized-message bracket renderer
(parseMessageContent in the Message component) and the message-options
preference migration (src/frontend/src/hooks/messageOptions.ts), and
proves the specified properties about them.

Strings are embedded as lists of characters (JS string slicing and
character tests are index-based here, which is faithful for the
operations used).  The JS regexes are embedded by their semantics on
lists of characters, argued case by case in the comments next to each
definition.
-/

namespace DS

/-- Texts are lists of characters. -/
abbrev Text := List Char

/-- Embeds the JS character class backslash-w of the regexes used by the
composer: ASCII letters, ASCII digits and underscore. -/
def isWordChar (c : Char) : Bool :=
  c.isAlpha || c.isDigit || c == '_'

/-- The maximal run of word characters at the end of a text: this is what
the anchored greedy JS regex (backslash-w repeated at least once, anchored
at the end of the string) captures when it matches. -/
def trailingWordRun (l : Text) : Text :=
  (l.reverse.takeWhile isWordChar).reverse

/-- Embeds textBeforeCursor.match of the anchored regex requiring at
least 3 word characters before the end (used both by handleChange and by
insertSuggestionAtCaret): the match exists exactly when the maximal
trailing run of word characters has length at least 3, and its capture
group is that whole run (the leftmost match starts at the beginning of
the run and the greedy quantifier extends to the end of the string). -/
def wordQueryAtCursor (textBeforeCursor : Text) : Option Text :=
  let run := trailingWordRun textBeforeCursor
  if 3 ≤ run.length then some run else none

/-- Boolean test that the first list occurs at the head of the second. -/
def leadsWith : Text → Text → Bool
  | [], _ => true
  | _ :: _, [] => false
  | a :: p, b :: l => a == b && leadsWith p l

/-- Embeds JS String.includes on embedded texts: the first list occurs
contiguously somewhere in the second. -/
def containsSub (needle : Text) : Text → Bool
  | [] => needle.isEmpty
  | c :: t => leadsWith needle (c :: t) || containsSub needle t

/-- Character-wise lowercasing, embedding String.toLowerCase for the
ASCII texts the composer works with. -/
def lowerText (l : Text) : Text := l.map Char.toLower

/-- A suggestion dictionary (the autoCompleteList prop): keys in their
JS-object iteration (insertion) order, each mapped to its tag list. -/
abbrev Dict := List (Text × List String)

/-- The state of the composer that the reviewed handlers read and write:
input value, caret position, the filtered candidate list, the visibility
flag of the suggestion list and the highlighted index. -/
structure ComposerState where
  inputValue : Text
  cursor : Nat
  filteredSuggestions : List Text
  showSuggestions : Bool
  selectedIndex : Nat
deriving DecidableEq

/-- Embeds handleChange: recompute the query from the text before the
caret; on a match, filter the dictionary keys by case-insensitive
substring containment, show the list iff the filtered list is non-empty
and reset the highlighted index; otherwise hide the list and reset the
index (the filtered list itself is left as it was). -/
def handleChange (dict : Dict) (st : ComposerState) (value : Text)
    (cursorPos : Nat) : ComposerState :=
  let textBeforeCursor := value.take cursorPos
  match wordQueryAtCursor textBeforeCursor with
  | some run =>
    let query := lowerText run
    let filtered := (dict.map Prod.fst).filter
      (fun s => containsSub query (lowerText s))
    { st with
      inputValue := value
      cursor := cursorPos
      filteredSuggestions := filtered
      showSuggestions := decide (0 < filtered.length)
      selectedIndex := 0 }
  | none =>
    { st with
      inputValue := value
      cursor := cursorPos
      showSuggestions := false
      selectedIndex := 0 }

/-- The wrapper decision of insertSuggestionAtCaret: square brackets for
a uniqueKey tag, angle brackets for a glossary tag, otherwise the bare
candidate. -/
def wrapSuggestion (suggestion : Text) (tags : List String) : Text :=
  if tags.contains "uniqueKey" then '[' :: (suggestion ++ [']'])
  else if tags.contains "glossary" then '<' :: (suggestion ++ ['>'])
  else suggestion

/-- Embeds the text computation of insertSuggestionAtCaret: slice the
value at the selection, recompute the in-progress word before the
selection start with the same regex as handleChange, and splice the
wrapped candidate plus one space over it.  Returns the new value and the
caret position set afterwards (replaceStart + wrapped.length + 1). -/
def insertSuggestionCore (inputValue : Text) (start endPos : Nat)
    (suggestion : Text) (tags : List String) : Text × Nat :=
  let textBefore := inputValue.take start
  let textAfter := inputValue.drop endPos
  let run := trailingWordRun textBefore
  let replaceStart := if 3 ≤ run.length then start - run.length else start
  let wrapped := wrapSuggestion suggestion tags
  (inputValue.take replaceStart ++ wrapped ++ [' '] ++ textAfter,
   replaceStart + wrapped.length + 1)

/-- insertSuggestionAtCaret at the state level: look the candidate's tags
up in the dictionary (an absent entry behaves as no tags, as the optional
chaining in the source does), splice, hide the list, reset the index and
move the caret.  The selection is the caret (start = end). -/
def insertSuggestionState (dict : Dict) (st : ComposerState)
    (suggestion : Text) : ComposerState :=
  let r := insertSuggestionCore st.inputValue st.cursor st.cursor suggestion
    ((List.lookup suggestion dict).getD [])
  { st with
    inputValue := r.1
    cursor := r.2
    showSuggestions := false
    selectedIndex := 0 }

/-- Embeds handleSubmit: a no-op when disabled or the input is empty,
otherwise the message is submitted, the input cleared and the list
hidden. -/
def handleSubmit (disabled : Bool) (st : ComposerState) :
    ComposerState × Option Text :=
  if disabled || st.inputValue.isEmpty then (st, none)
  else ({ st with inputValue := [], showSuggestions := false },
        some st.inputValue)

/-- The observable outcome of one keydown: the new state, the message
submitted by it (if any), and whether the suggestion contract consumed
the event (returned early from inside the suggestions-shown guard). -/
structure KeyResult where
  state : ComposerState
  submitted : Option Text
  consumed : Bool
deriving DecidableEq

/-- The tail of handleKeyPress, reached when the suggestions-shown guard
does not consume the event: Enter without shift runs handleSubmit, any
other key is left to normal input handling. -/
def enterFallthrough (disabled : Bool) (st : ComposerState) (key : String)
    (shift : Bool) : KeyResult :=
  if key == "Enter" && !shift then
    let p := handleSubmit disabled st
    ⟨p.1, p.2, false⟩
  else ⟨st, none, false⟩

/-- Embeds handleKeyPress: while the list is shown and non-empty,
ArrowDown and ArrowUp move the highlighted index clamped to the list,
Tab accepts the highlighted candidate and Escape hides the list, each
returning early; every other key — and every key when the list is not
shown — falls through to the Enter check. -/
def handleKeyPress (dict : Dict) (disabled : Bool) (st : ComposerState)
    (key : String) (shift : Bool) : KeyResult :=
  if st.showSuggestions && decide (0 < st.filteredSuggestions.length) then
    if key == "ArrowDown" then
      ⟨{ st with selectedIndex :=
          if st.selectedIndex < st.filteredSuggestions.length - 1 then
            st.selectedIndex + 1
          else st.selectedIndex }, none, true⟩
    else if key == "ArrowUp" then
      ⟨{ st with selectedIndex :=
          if 0 < st.selectedIndex then st.selectedIndex - 1
          else st.selectedIndex }, none, true⟩
    else if key == "Tab" then
      ⟨insertSuggestionState dict st
        (st.filteredSuggestions.getD st.selectedIndex []), none, true⟩
    else if key == "Escape" then
      ⟨{ st with showSuggestions := false }, none, true⟩
    else enterFallthrough disabled st key shift
  else enterFallthrough disabled st key shift

/-- The operations the component can perform on the composer state: a
text change, a keydown, a click on the rendered candidate at an index,
and a mouse hover over the rendered candidate at an index. -/
inductive ComposerOp
  | change (value : Text) (cursorPos : Nat)
  | key (k : String) (shift : Bool)
  | click (i : Nat)
  | hover (i : Nat)

/-- One composer operation applied to the state. -/
def stepComposer (dict : Dict) (disabled : Bool) (st : ComposerState) :
    ComposerOp → ComposerState
  | .change value cursorPos => handleChange dict st value cursorPos
  | .key k shift => (handleKeyPress dict disabled st k shift).state
  | .click i => insertSuggestionState dict st (st.filteredSuggestions.getD i [])
  | .hover i => { st with selectedIndex := i }

/-- Side condition under which the component can fire an operation: click
and hover only happen on a rendered list item, whose index is below the
filtered list's length. -/
def validOp (st : ComposerState) : ComposerOp → Prop
  | .click i => i < st.filteredSuggestions.length
  | .hover i => i < st.filteredSuggestions.length
  | _ => True

/-- The highlighted-index invariant: in bounds whenever the filtered list
is non-empty. -/
def SelInv (st : ComposerState) : Prop :=
  st.filteredSuggestions ≠ [] →
    st.selectedIndex < st.filteredSuggestions.length

/-! ## Finalized-message bracket renderer (parseMessageContent) -/

/-- One segment of a rendered finalized message: a plain-text run, a
glossary chip (the span produced for an angle-bracket match) or a
unique-key chip (the strong element produced for a square-bracket
match). -/
inductive Segment
  | text (s : Text)
  | glossaryChip (s : Text)
  | uniqueKeyChip (s : Text)
deriving DecidableEq

/-- Embeds one attempt of the renderer's regex at the head of the text:
an angle alternative (open angle bracket, one or more characters that are
not a closing angle bracket — greedy, so exactly the run up to the first
closing angle bracket — then the closing angle bracket), else the square
alternative likewise.  The two alternatives start with different
characters, so the JS alternation order is immaterial.  Returns the chip
and the total length consumed. -/
def tryChip : Text → Option (Segment × Nat)
  | [] => none
  | c :: rest =>
    if c = '<' then
      let content := rest.takeWhile (fun x => x != '>')
      if content.isEmpty then none
      else if content.length < rest.length then
        some (.glossaryChip content, content.length + 2)
      else none
    else if c = '[' then
      let content := rest.takeWhile (fun x => x != ']')
      if content.isEmpty then none
      else if content.length < rest.length then
        some (.uniqueKeyChip content, content.length + 2)
      else none
    else none

/-- The renderer's exec loop, fuelled for structural recursion (the fuel
is at least the remaining length at every reachable call, so the
fuel-exhausted arm is never taken): scan left to right for the first
position where the regex matches, flush the pending plain run if it is
non-empty, emit the chip and continue after the match; the pending run
is accumulated in reverse in acc. -/
def parseAux : Nat → Text → Text → List Segment
  | _, acc, [] => if acc.isEmpty then [] else [Segment.text acc.reverse]
  | 0, acc, l =>
    if (acc.reverse ++ l).isEmpty then []
    else [Segment.text (acc.reverse ++ l)]
  | fuel + 1, acc, c :: rest =>
    match tryChip (c :: rest) with
    | some (seg, len) =>
      (if acc.isEmpty then [] else [Segment.text acc.reverse]) ++
        seg :: parseAux fuel [] (List.drop len (c :: rest))
    | none => parseAux fuel (c :: acc) rest

/-- Embeds parseMessageContent of the Message component: the regex-exec
loop over the whole text, starting with no pending plain run. -/
def parseMessageContent (l : Text) : List Segment :=
  parseAux l.length [] l

/-! ## Message-options preference migration (messageOptions.ts) -/

/-- The per-connection message-options record. -/
structure IMessageOptions where
  secure_data : Bool
  debug : Bool
deriving DecidableEq

/-- Modelled from the spec: DEFAULT_OPTIONS is imported from the api
module, which is not among the reviewed sources; the spec calls it "a
hard-coded default record" of the two flags.  Its concrete field values
are not used by any property below beyond its identity as the default. -/
def DEFAULT_OPTIONS : IMessageOptions := ⟨false, false⟩

/-- The client-side persistent storage as the migration code sees it:
the value stored under the migration marker key (absent or a string) and
the stored preference map (a JS object: keys in insertion order, no
duplicate keys; an absent blob parses to the empty map, so absence and
emptiness coincide). -/
structure LocalStorage where
  migrationV1 : Option String
  messageOptions : List (String × IMessageOptions)
deriving DecidableEq

/-- JS truthiness of a getItem result: null and the empty string are
falsy, every other string truthy. -/
def jsTruthy : Option String → Bool
  | none => false
  | some s => !s.isEmpty

/-- The forced-overwrite pass of the migration: every stored entry's
secure_data flag is set to false (the forEach over the object keys; JS
object keys are unique, so updating each key is mapping each entry). -/
def migrateAll (m : List (String × IMessageOptions)) :
    List (String × IMessageOptions) :=
  m.map (fun kv => (kv.1, { kv.2 with secure_data := false }))

/-- Embeds readMessageOptionsFromLocalStorage: undefined connection id
returns the default immediately; otherwise, when the marker is absent,
run the forced-overwrite pass, write the map back, set the marker and
return the migrated entry when present; in every remaining case fall
through to a plain read of the (possibly just-written) map.  Returns the
record together with the storage after the call. -/
def readMessageOptionsFromLocalStorage (st : LocalStorage)
    (connection_id : Option String) : IMessageOptions × LocalStorage :=
  match connection_id with
  | none => (DEFAULT_OPTIONS, st)
  | some cid =>
    if jsTruthy st.migrationV1 then
      match List.lookup cid st.messageOptions with
      | some v => (v, st)
      | none => (DEFAULT_OPTIONS, st)
    else
      let migrated := migrateAll st.messageOptions
      let st2 : LocalStorage := ⟨some "true", migrated⟩
      match List.lookup cid migrated with
      | some v => (v, st2)
      | none =>
        match List.lookup cid st2.messageOptions with
        | some v => (v, st2)
        | none => (DEFAULT_OPTIONS, st2)

/-! ## Claims about the preference migration -/

/-- Claim C2: with no migration marker set, the first read for a defined
connection id forces secure_data to false on every stored entry, writes
the migrated map back, sets the marker, and returns the entry for the
requested connection out of the migrated map (the default when absent);
a second read then returns the same value and leaves storage untouched,
so the forced-overwrite pass runs at most once. -/
theorem migration_runs_once (st : LocalStorage) (cid : String)
    (h : jsTruthy st.migrationV1 = false) :
    (readMessageOptionsFromLocalStorage st (some cid)).2 =
      ⟨some "true", migrateAll st.messageOptions⟩ ∧
    (∀ e ∈ (readMessageOptionsFromLocalStorage st (some cid)).2.messageOptions,
      e.2.secure_data = false) ∧
    (readMessageOptionsFromLocalStorage st (some cid)).1 =
      (List.lookup cid (migrateAll st.messageOptions)).getD DEFAULT_OPTIONS ∧
    readMessageOptionsFromLocalStorage
        (readMessageOptionsFromLocalStorage st (some cid)).2 (some cid) =
      ((readMessageOptionsFromLocalStorage st (some cid)).1,
       (readMessageOptionsFromLocalStorage st (some cid)).2) := by
  have hall : ∀ e ∈ migrateAll st.messageOptions, e.2.secure_data = false := by
    intro e he
    simp only [migrateAll, List.mem_map] at he
    obtain ⟨kv, _, rfl⟩ := he
    rfl
  unfold readMessageOptionsFromLocalStorage
  simp only [h, Bool.false_eq_true, if_false]
  cases hl : List.lookup cid (migrateAll st.messageOptions) with
  | none =>
    simp only [hl, jsTruthy, String.isEmpty, if_true]
    exact ⟨trivial, hall, rfl, rfl⟩
  | some v =>
    simp only [hl, jsTruthy, String.isEmpty, if_true]
    exact ⟨trivial, hall, rfl, rfl⟩

/-- Witness for C2 at the spec's example map. -/
theorem migration_runs_once_witness :
    (readMessageOptionsFromLocalStorage
        ⟨none, [("conn1", ⟨true, false⟩)]⟩ (some "conn1")).2 =
      ⟨some "true", migrateAll [("conn1", ⟨true, false⟩)]⟩ ∧
    (∀ e ∈ (readMessageOptionsFromLocalStorage
        ⟨none, [("conn1", ⟨true, false⟩)]⟩ (some "conn1")).2.messageOptions,
      e.2.secure_data = false) ∧
    (readMessageOptionsFromLocalStorage
        ⟨none, [("conn1", ⟨true, false⟩)]⟩ (some "conn1")).1 =
      (List.lookup "conn1"
        (migrateAll [("conn1", ⟨true, false⟩)])).getD DEFAULT_OPTIONS ∧
    readMessageOptionsFromLocalStorage
        (readMessageOptionsFromLocalStorage
          ⟨none, [("conn1", ⟨true, false⟩)]⟩ (some "conn1")).2 (some "conn1") =
      ((readMessageOptionsFromLocalStorage
          ⟨none, [("conn1", ⟨true, false⟩)]⟩ (some "conn1")).1,
       (readMessageOptionsFromLocalStorage
          ⟨none, [("conn1", ⟨true, false⟩)]⟩ (some "conn1")).2) :=
  migration_runs_once ⟨none, [("conn1", ⟨true, false⟩)]⟩ "conn1" rfl

/-- Claim C9: with an undefined connection id the read returns the
hard-coded default record at once and the storage is untouched: no
marker check, no migration, no read or write of the stored map. -/
theorem undefined_connection_skips_migration (st : LocalStorage) :
    readMessageOptionsFromLocalStorage st none = (DEFAULT_OPTIONS, st) :=
  rfl

/-! ## Claims about the finalized-message renderer -/

/-- Well-formedness of one emitted segment: plain runs are non-empty, and
chip contents are non-empty and free of the closing bracket of their own
kind. -/
def SegmentWF : Segment → Prop
  | .text s => s ≠ []
  | .glossaryChip s => s ≠ [] ∧ '>' ∉ s
  | .uniqueKeyChip s => s ≠ [] ∧ ']' ∉ s

theorem tryChip_spec (l : Text) (seg : Segment) (len : Nat)
    (h : tryChip l = some (seg, len)) : 3 ≤ len ∧ SegmentWF seg := by
  cases l with
  | nil => simp [tryChip] at h
  | cons c rest =>
    simp only [tryChip] at h
    split_ifs at h with h1 h2 h3 h4 h5 h6 <;>
      simp only [Option.some.injEq, Prod.mk.injEq, reduceCtorEq] at h
    · obtain ⟨rfl, rfl⟩ := h
      refine ⟨?_, ?_, ?_⟩
      · have : ¬ (rest.takeWhile (fun x => x != '>')) = [] := by
          simpa [List.isEmpty_iff] using h2
        have : 0 < (rest.takeWhile (fun x => x != '>')).length :=
          List.length_pos.mpr this
        omega
      · simpa [List.isEmpty_iff] using h2
      · intro hm
        have := List.mem_takeWhile_imp hm
        simp at this
    · obtain ⟨rfl, rfl⟩ := h
      refine ⟨?_, ?_, ?_⟩
      · have : ¬ (rest.takeWhile (fun x => x != ']')) = [] := by
          simpa [List.isEmpty_iff] using h5
        have : 0 < (rest.takeWhile (fun x => x != ']')).length :=
          List.length_pos.mpr this
        omega
      · simpa [List.isEmpty_iff] using h5
      · intro hm
        have := List.mem_takeWhile_imp hm
        simp at this

theorem parseAux_wf (fuel : Nat) : ∀ acc l seg, seg ∈ parseAux fuel acc l →
    (acc = [] ∨ True) → SegmentWF seg := by
  induction fuel with
  | zero =>
    intro acc l seg h _
    cases l with
    | nil =>
      simp only [parseAux] at h
      split_ifs at h with h1
      · simp at h
      · simp only [List.mem_singleton] at h
        subst h
        simp only [SegmentWF]
        simpa [List.isEmpty_iff] using h1
    | cons c rest =>
      simp only [parseAux] at h
      split_ifs at h with h1
      · simp at h
      · simp only [List.mem_singleton] at h
        subst h
        simp only [SegmentWF]
        simp [List.isEmpty_iff]
  | succ fuel ih =>
    intro acc l seg h _
    cases l with
    | nil =>
      simp only [parseAux] at h
      split_ifs at h with h1
      · simp at h
      · simp only [List.mem_singleton] at h
        subst h
        simp only [SegmentWF]
        simpa [List.isEmpty_iff] using h1
    | cons c rest =>
      rw [parseAux] at h
      cases htc : tryChip (c :: rest) with
      | none =>
        rw [htc] at h
        exact ih (c :: acc) rest seg h (Or.inr trivial)
      | some p =>
        obtain ⟨s, len⟩ := p
        rw [htc] at h
        simp only [List.mem_append, List.mem_cons] at h
        rcases h with h | h | h
        · split_ifs at h with h1
          · simp at h
          · simp only [List.mem_singleton] at h
            subst h
            simp only [SegmentWF]
            simpa [List.isEmpty_iff] using h1
        · subst h
          exact (tryChip_spec _ _ _ htc).2
        · exact ih [] _ seg h (Or.inl rfl)

theorem parseAux_no_match (fuel : Nat) : ∀ acc l, l.length ≤ fuel →
    (∀ i, i < l.length → tryChip (l.drop i) = none) →
    parseAux fuel acc l =
      if (acc.reverse ++ l).isEmpty then []
      else [Segment.text (acc.reverse ++ l)] := by
  induction fuel with
  | zero =>
    intro acc l hlen _
    have hl : l = [] := List.eq_nil_of_length_eq_zero (Nat.le_zero.mp hlen)
    subst hl
    simp [parseAux, List.isEmpty_iff]
  | succ fuel ih =>
    intro acc l hlen hnm
    cases l with
    | nil => simp [parseAux, List.isEmpty_iff]
    | cons c rest =>
      have h0 : tryChip (c :: rest) = none := by
        have := hnm 0 (by simp)
        simpa using this
      have hlen2 : rest.length ≤ fuel := by
        simp only [List.length_cons] at hlen
        omega
      have hnm2 : ∀ i, i < rest.length → tryChip (rest.drop i) = none := by
        intro i hi
        have := hnm (i + 1) (by simp only [List.length_cons]; omega)
        simpa using this
      simp only [parseAux, h0]
      rw [ih (c :: acc) rest hlen2 hnm2]
      have he : (c :: acc).reverse ++ rest = acc.reverse ++ (c :: rest) := by
        simp
      rw [he]

/-- Claim C4 (amended): rendering the example message produces an ordered
sequence of four segments: plain text, a glossary chip for the
angle-bracket match, plain text, and a unique-key chip for the
square-bracket match, in original order with no nesting. -/
theorem parse_example_segments :
    parseMessageContent ("refund for <customer> and [order_id]".toList) =
      [Segment.text ("refund for ".toList),
       Segment.glossaryChip ("customer".toList),
       Segment.text (" and ".toList),
       Segment.uniqueKeyChip ("order_id".toList)] := by
  decide

/-- Counterexample to claim C4 as stated: the produced sequence has four
segments, not three. -/
theorem parse_example_not_three_segments :
    (parseMessageContent
      ("refund for <customer> and [order_id]".toList)).length ≠ 3 := by
  decide

/-- Claim C10: the renderer never emits an empty plain-text run, never
emits a chip for an empty bracket pair, every chip's content is non-empty
and free of its own closing bracket, and a text in which the regex never
matches (only empty or unmatched brackets) renders entirely as one plain
run. -/
theorem parse_segments_wellformed (l : Text) :
    (∀ s, Segment.text s ∈ parseMessageContent l → s ≠ []) ∧
    (∀ s, Segment.glossaryChip s ∈ parseMessageContent l →
      s ≠ [] ∧ '>' ∉ s) ∧
    (∀ s, Segment.uniqueKeyChip s ∈ parseMessageContent l →
      s ≠ [] ∧ ']' ∉ s) ∧
    ((∀ i, i < l.length → tryChip (l.drop i) = none) →
      parseMessageContent l = if l.isEmpty then []
        else [Segment.text l]) := by
  refine ⟨?_, ?_, ?_, ?_⟩
  · intro s h
    exact parseAux_wf l.length [] l (Segment.text s) h (Or.inl rfl)
  · intro s h
    exact parseAux_wf l.length [] l (Segment.glossaryChip s) h (Or.inl rfl)
  · intro s h
    exact parseAux_wf l.length [] l (Segment.uniqueKeyChip s) h (Or.inl rfl)
  · intro hnm
    unfold parseMessageContent
    rw [parseAux_no_match l.length [] l le_rfl hnm]
    simp

/-- Witness for C10: a text consisting only of empty and unmatched
brackets renders as a single plain run. -/
theorem parse_segments_wellformed_witness :
    parseMessageContent ("<>[] <".toList) =
      if ("<>[] <".toList).isEmpty then []
      else [Segment.text ("<>[] <".toList)] :=
  (parse_segments_wellformed ("<>[] <".toList)).2.2.2 (by decide)

/-! ## Claims about the keyboard contract -/

/-- Claim C1 (amended): while the suggestion list is shown and non-empty,
ArrowDown, ArrowUp, Tab and Escape are consumed by the suggestion
contract (submitting nothing) and every other key falls through to
normal input handling; the fallthrough — reached for every key when
suggestions are not shown, and for keys outside the four when they are —
submits the message exactly for Enter without a shift modifier on a
non-empty input with the composer enabled.  In particular Enter without
shift submits whether or not suggestions are shown. -/
theorem keyboard_contract (dict : Dict) (disabled : Bool)
    (st : ComposerState) (key : String) (shift : Bool) :
    (st.showSuggestions = true → st.filteredSuggestions ≠ [] →
      (key ∈ (["ArrowDown", "ArrowUp", "Tab", "Escape"] : List String) →
        (handleKeyPress dict disabled st key shift).consumed = true ∧
        (handleKeyPress dict disabled st key shift).submitted = none) ∧
      (key ∉ (["ArrowDown", "ArrowUp", "Tab", "Escape"] : List String) →
        handleKeyPress dict disabled st key shift =
          enterFallthrough disabled st key shift)) ∧
    (¬ (st.showSuggestions = true ∧ st.filteredSuggestions ≠ []) →
      handleKeyPress dict disabled st key shift =
        enterFallthrough disabled st key shift) ∧
    ((enterFallthrough disabled st key shift).submitted ≠ none ↔
      key = "Enter" ∧ shift = false ∧ disabled = false ∧
        st.inputValue ≠ []) ∧
    (enterFallthrough disabled st key shift).consumed = false ∧
    ((enterFallthrough disabled st key shift).submitted ≠ none →
      (enterFallthrough disabled st key shift).submitted =
        some st.inputValue) := by
  refine ⟨?_, ?_, ?_, ?_, ?_⟩
  · intro h1 h2
    have hg : (st.showSuggestions &&
        decide (0 < st.filteredSuggestions.length)) = true := by
      simp [h1, List.length_pos.mpr h2]
    constructor
    · intro hk
      simp only [List.mem_cons, List.not_mem_nil, or_false] at hk
      rcases hk with rfl | rfl | rfl | rfl <;>
        simp [handleKeyPress, hg]
    · intro hk
      simp only [List.mem_cons, List.not_mem_nil, or_false, not_or] at hk
      obtain ⟨k1, k2, k3, k4⟩ := hk
      simp [handleKeyPress, hg, k1, k2, k3, k4]
  · intro hn
    have hg : (st.showSuggestions &&
        decide (0 < st.filteredSuggestions.length)) = false := by
      rcases Bool.eq_false_or_eq_true st.showSuggestions with h | h
      · have he : st.filteredSuggestions = [] := by
          by_contra hne
          exact hn ⟨h, hne⟩
        simp [h, he]
      · simp [h]
    simp [handleKeyPress, hg]
  · unfold enterFallthrough handleSubmit
    by_cases hk : key = "Enter"
    · subst hk
      by_cases hs : shift
      · simp [hs]
      · by_cases hd : disabled
        · simp [hs, hd]
        · by_cases hi : st.inputValue = []
          · simp [hs, hd, hi, List.isEmpty_iff]
          · simp [hs, hd, hi, List.isEmpty_iff]
    · simp [hk]
  · unfold enterFallthrough
    split_ifs <;> rfl
  · unfold enterFallthrough handleSubmit
    split_ifs <;> simp

/-- Witness for C1: while the list is shown and non-empty, Escape is
consumed and submits nothing. -/
theorem keyboard_contract_witness :
    (handleKeyPress [] false
      ⟨['h', 'i'], 2, [['h', 'i', 'g']], true, 0⟩ "Escape" false).consumed
      = true ∧
    (handleKeyPress [] false
      ⟨['h', 'i'], 2, [['h', 'i', 'g']], true, 0⟩ "Escape" false).submitted
      = none :=
  ((keyboard_contract [] false ⟨['h', 'i'], 2, [['h', 'i', 'g']], true, 0⟩
    "Escape" false).1 rfl (by decide)).1 (by decide)

/-- Counterexample to claim C1 as stated: with the suggestion list shown
and non-empty, Enter without shift still submits the message (the Enter
check sits after, not inside, the suggestions-shown guard). -/
theorem enter_submits_while_suggestions_shown :
    (handleKeyPress [] false
      ⟨['h', 'i'], 2, [['h', 'i', 'g']], true, 0⟩ "Enter" false).submitted
      = some ['h', 'i'] := by
  decide

/-- Claim C8: Escape while the suggestion list is shown and non-empty
hides the list and leaves the input text and the caret position
unchanged (it changes nothing else of the composer state either). -/
theorem escape_preserves_text (dict : Dict) (disabled : Bool)
    (st : ComposerState) (shift : Bool)
    (h1 : st.showSuggestions = true) (h2 : st.filteredSuggestions ≠ []) :
    (handleKeyPress dict disabled st "Escape" shift).state =
      { st with showSuggestions := false } ∧
    (handleKeyPress dict disabled st "Escape" shift).state.inputValue =
      st.inputValue ∧
    (handleKeyPress dict disabled st "Escape" shift).state.cursor =
      st.cursor ∧
    (handleKeyPress dict disabled st "Escape" shift).state.showSuggestions
      = false := by
  have hg : (st.showSuggestions &&
      decide (0 < st.filteredSuggestions.length)) = true := by
    simp [h1, List.length_pos.mpr h2]
  simp [handleKeyPress, hg]

/-- Witness for C8 at a concrete shown state. -/
theorem escape_preserves_text_witness :
    (handleKeyPress [] false
      ⟨['h', 'i'], 2, [['h', 'i', 'g']], true, 0⟩ "Escape" false).state =
      { (⟨['h', 'i'], 2, [['h', 'i', 'g']], true, 0⟩ : ComposerState) with
        showSuggestions := false } ∧
    (handleKeyPress [] false
      ⟨['h', 'i'], 2, [['h', 'i', 'g']], true, 0⟩
      "Escape" false).state.inputValue = ['h', 'i'] ∧
    (handleKeyPress [] false
      ⟨['h', 'i'], 2, [['h', 'i', 'g']], true, 0⟩
      "Escape" false).state.cursor = 2 ∧
    (handleKeyPress [] false
      ⟨['h', 'i'], 2, [['h', 'i', 'g']], true, 0⟩
      "Escape" false).state.showSuggestions = false :=
  escape_preserves_text [] false ⟨['h', 'i'], 2, [['h', 'i', 'g']], true, 0⟩
    false rfl (by decide)

/-- Claim C7: under every composer operation the highlighted index stays
within bounds of the non-empty filtered list; while the list is shown,
ArrowDown advances by 1 clamped to the last index and ArrowUp decreases
by 1 clamped to 0 (each a no-op at its boundary). -/
theorem highlighted_index_in_bounds (dict : Dict) (disabled : Bool)
    (st : ComposerState) (hInv : SelInv st) :
    (∀ op, validOp st op → SelInv (stepComposer dict disabled st op)) ∧
    (st.showSuggestions = true → st.filteredSuggestions ≠ [] → ∀ sh,
      (stepComposer dict disabled st
          (.key "ArrowDown" sh)).selectedIndex =
        min (st.selectedIndex + 1) (st.filteredSuggestions.length - 1) ∧
      (stepComposer dict disabled st (.key "ArrowUp" sh)).selectedIndex =
        st.selectedIndex - 1) := by
  constructor
  · intro op hv
    cases op with
    | change value cursorPos =>
      simp only [stepComposer, handleChange]
      cases hq : wordQueryAtCursor (value.take cursorPos) with
      | some run =>
        intro hne
        exact List.length_pos.mpr hne
      | none =>
        intro hne
        exact List.length_pos.mpr hne
    | key k sh =>
      simp only [stepComposer, handleKeyPress]
      by_cases hg : (st.showSuggestions &&
          decide (0 < st.filteredSuggestions.length)) = true
      · rw [if_pos hg]
        have hlen : 0 < st.filteredSuggestions.length := by
          simp only [Bool.and_eq_true, decide_eq_true_eq] at hg
          exact hg.2
        have hidx : st.selectedIndex < st.filteredSuggestions.length :=
          hInv (List.ne_nil_of_length_pos hlen)
        by_cases k1 : k == "ArrowDown"
        · rw [if_pos k1]
          intro _
          simp only
          split_ifs <;> omega
        · rw [if_neg k1]
          by_cases k2 : k == "ArrowUp"
          · rw [if_pos k2]
            intro _
            simp only
            split_ifs <;> omega
          · rw [if_neg k2]
            by_cases k3 : k == "Tab"
            · rw [if_pos k3]
              simp only [insertSuggestionState]
              intro hne
              exact List.length_pos.mpr hne
            · rw [if_neg k3]
              by_cases k4 : k == "Escape"
              · rw [if_pos k4]
                exact fun hne => hInv hne
              · rw [if_neg k4]
                simp only [enterFallthrough, handleSubmit]
                split_ifs <;> intro hne <;> exact hInv hne
      · rw [if_neg hg]
        simp only [enterFallthrough, handleSubmit]
        split_ifs <;> intro hne <;> exact hInv hne
    | click i =>
      simp only [stepComposer, insertSuggestionState]
      intro hne
      exact List.length_pos.mpr hne
    | hover i =>
      intro _
      exact hv
  · intro h1 h2 sh
    have hg : (st.showSuggestions &&
        decide (0 < st.filteredSuggestions.length)) = true := by
      simp [h1, List.length_pos.mpr h2]
    have hidx : st.selectedIndex < st.filteredSuggestions.length := hInv h2
    constructor
    · simp only [stepComposer]
      simp [handleKeyPress, hg]
      split_ifs <;> omega
    · simp only [stepComposer]
      simp [handleKeyPress, hg]
      intro h3
      omega

/-- Witness for C7: ArrowDown at the last index of a shown two-element
list is a no-op on the highlighted index. -/
theorem highlighted_index_in_bounds_witness :
    (stepComposer [] false
        (⟨['a', 'b', 'c'], 3, [['a', 'b', 'c'], ['a', 'b', 'd']], true, 1⟩ :
          ComposerState)
        (.key "ArrowDown" false)).selectedIndex =
      min (1 + 1)
        (([['a', 'b', 'c'], ['a', 'b', 'd']] : List Text).length - 1) :=
  ((highlighted_index_in_bounds [] false
    ⟨['a', 'b', 'c'], 3, [['a', 'b', 'c'], ['a', 'b', 'd']], true, 1⟩
    (fun _ => by decide)).2 rfl (by decide) false).1

/-! ## Claims about the trigger condition and the filtering -/

theorem leadsWith_iff (p l : Text) :
    leadsWith p l = true ↔ ∃ t, p ++ t = l := by
  induction p generalizing l with
  | nil => simp [leadsWith]
  | cons a p ih =>
    cases l with
    | nil => simp [leadsWith]
    | cons b l =>
      simp only [leadsWith, Bool.and_eq_true, beq_iff_eq, ih]
      constructor
      · rintro ⟨rfl, t, rfl⟩
        exact ⟨t, rfl⟩
      · rintro ⟨t, h⟩
        injection h with h1 h2
        exact ⟨h1, t, h2⟩

theorem containsSub_iff (p l : Text) :
    containsSub p l = true ↔ ∃ s t, s ++ p ++ t = l := by
  induction l with
  | nil =>
    simp only [containsSub, List.isEmpty_iff]
    constructor
    · rintro rfl
      exact ⟨[], [], rfl⟩
    · rintro ⟨s, t, h⟩
      rcases List.append_eq_nil.mp h with ⟨h1, -⟩
      exact (List.append_eq_nil.mp h1).2
  | cons c l ih =>
    simp only [containsSub, Bool.or_eq_true, leadsWith_iff, ih]
    constructor
    · rintro (⟨t, h⟩ | ⟨s, t, rfl⟩)
      · exact ⟨[], t, by simpa using h⟩
      · exact ⟨c :: s, t, rfl⟩
    · rintro ⟨s, t, h⟩
      cases s with
      | nil => exact Or.inl ⟨t, by simpa using h⟩
      | cons x s =>
        injection h with h1 h2
        subst h1
        exact Or.inr ⟨s, t, h2⟩

/-- Claim C5: when a query exists, the filtered candidate list is exactly
the dictionary keys whose lowercase form contains the lowercase query as
a substring (not prefix-only), in the dictionary's iteration order; the
list is shown iff the filtered set is non-empty, and the highlighted
index is reset to 0. -/
theorem filtered_candidates (dict : Dict) (st : ComposerState)
    (value : Text) (cursorPos : Nat) (run : Text)
    (hq : wordQueryAtCursor (value.take cursorPos) = some run) :
    (handleChange dict st value cursorPos).filteredSuggestions =
      (dict.map Prod.fst).filter
        (fun k => containsSub (lowerText run) (lowerText k)) ∧
    (∀ k, k ∈ (handleChange dict st value cursorPos).filteredSuggestions ↔
      k ∈ dict.map Prod.fst ∧
        ∃ s t, s ++ lowerText run ++ t = lowerText k) ∧
    ((handleChange dict st value cursorPos).showSuggestions = true ↔
      (handleChange dict st value cursorPos).filteredSuggestions ≠ []) ∧
    (handleChange dict st value cursorPos).selectedIndex = 0 := by
  refine ⟨?_, ?_, ?_, ?_⟩
  · simp [handleChange, hq]
  · intro k
    simp [handleChange, hq, List.mem_filter, containsSub_iff]
  · simp [handleChange, hq, List.length_pos]
  · simp [handleChange, hq]

/-- Witness for C5: the key matches the query case-insensitively as a
substring and is listed. -/
theorem filtered_candidates_witness :
    (handleChange [(("Customer_ID".toList), ["uniqueKey"])]
        ⟨[], 0, [], false, 0⟩ ("show cus".toList) 8).filteredSuggestions =
      (([(("Customer_ID".toList), ["uniqueKey"])] : Dict).map
        Prod.fst).filter
        (fun k => containsSub (lowerText ("cus".toList)) (lowerText k)) :=
  (filtered_candidates [(("Customer_ID".toList), ["uniqueKey"])]
    ⟨[], 0, [], false, 0⟩ ("show cus".toList) 8 ("cus".toList)
    (by decide)).1

theorem trailingWordRun_all_word (l : Text) :
    ∀ c ∈ trailingWordRun l, isWordChar c = true := by
  intro c hc
  unfold trailingWordRun at hc
  rw [List.mem_reverse] at hc
  exact List.mem_takeWhile_imp hc

theorem trailingWordRun_decomp (l : Text) :
    ∃ pre, pre ++ trailingWordRun l = l ∧
      ∀ c, pre.getLast? = some c → isWordChar c = false := by
  refine ⟨(l.reverse.dropWhile isWordChar).reverse, ?_, ?_⟩
  · rw [trailingWordRun, ← List.reverse_append,
      List.takeWhile_append_dropWhile, List.reverse_reverse]
  · intro c hc
    rw [← List.head?_reverse, List.reverse_reverse] at hc
    have hd := List.head?_dropWhile_not isWordChar l.reverse
    rw [hc] at hd
    exact hd

theorem trailingWordRun_eq_of (pre run : Text)
    (hw : ∀ c ∈ run, isWordChar c = true)
    (hb : ∀ c, pre.getLast? = some c → isWordChar c = false) :
    trailingWordRun (pre ++ run) = run := by
  unfold trailingWordRun
  rw [List.reverse_append,
    List.takeWhile_append_of_pos
      (fun a ha => hw a (List.mem_reverse.mp ha))]
  have hz : pre.reverse.takeWhile isWordChar = [] := by
    cases hp : pre.reverse with
    | nil => simp
    | cons c t =>
      have hgl : pre.getLast? = some c := by
        rw [← List.head?_reverse, hp]
        rfl
      rw [List.takeWhile_cons_of_neg]
      simp [hb c hgl]
  rw [hz]
  simp

/-- Claim C6: after a text change, the in-progress query is exactly the
maximal contiguous run of word characters immediately preceding the
cursor when that run has length at least 3; when it is shorter (or
absent) no query exists and suggestions are hidden. -/
theorem query_is_maximal_run (value : Text) (cursorPos : Nat) :
    (∀ run, wordQueryAtCursor (value.take cursorPos) = some run →
      3 ≤ run.length ∧ (∀ c ∈ run, isWordChar c = true) ∧
      ∃ pre, pre ++ run = value.take cursorPos ∧
        ∀ c, pre.getLast? = some c → isWordChar c = false) ∧
    (wordQueryAtCursor (value.take cursorPos) = none →
      (trailingWordRun (value.take cursorPos)).length < 3 ∧
      ∀ dict st, (handleChange dict st value cursorPos).showSuggestions
        = false) := by
  constructor
  · intro run hr
    simp only [wordQueryAtCursor] at hr
    split_ifs at hr with h3
    · injection hr with hr
      subst hr
      exact ⟨h3, trailingWordRun_all_word _, trailingWordRun_decomp _⟩
  · intro hn
    have h3 : ¬ 3 ≤ (trailingWordRun (value.take cursorPos)).length := by
      intro hge
      simp only [wordQueryAtCursor] at hn
      rw [if_pos hge] at hn
      cases hn
    refine ⟨by omega, ?_⟩
    intro dict st
    simp [handleChange, hn]

/-- Witness for C6 on the spec's example text. -/
theorem query_is_maximal_run_witness :
    3 ≤ ("rev".toList).length ∧
    (∀ c ∈ ("rev".toList), isWordChar c = true) ∧
    ∃ pre, pre ++ ("rev".toList) = ("what is rev".toList).take 11 ∧
      ∀ c, pre.getLast? = some c → isWordChar c = false :=
  (query_is_maximal_run ("what is rev".toList) 11).1 ("rev".toList)
    (by decide)

/-- Claim C3: with the caret preceded by an in-progress word of at least
3 word characters, accepting a candidate replaces the text from the
start of that word through the caret with the wrapped candidate — square
brackets for a uniqueKey tag, angle brackets for a glossary tag, bare
otherwise — followed by a single trailing space, and the caret moves to
immediately after that trailing space. -/
theorem insertion_replaces_word (inputValue pre run suggestion : Text)
    (tags : List String) (cursorPos : Nat)
    (hpos : cursorPos ≤ inputValue.length)
    (hdecomp : pre ++ run = inputValue.take cursorPos)
    (hw : ∀ c ∈ run, isWordChar c = true)
    (hb : ∀ c, pre.getLast? = some c → isWordChar c = false)
    (hlen : 3 ≤ run.length) :
    insertSuggestionCore inputValue cursorPos cursorPos suggestion tags =
      (pre ++ wrapSuggestion suggestion tags ++ [' '] ++
        inputValue.drop cursorPos,
       pre.length + (wrapSuggestion suggestion tags).length + 1) := by
  have hrun : trailingWordRun (inputValue.take cursorPos) = run := by
    rw [← hdecomp]
    exact trailingWordRun_eq_of pre run hw hb
  have hlen2 : (inputValue.take cursorPos).length = cursorPos := by
    simp [List.length_take, Nat.min_eq_left hpos]
  have hplen : pre.length + run.length = cursorPos := by
    have hcongr := congrArg List.length hdecomp
    simp only [List.length_append] at hcongr
    omega
  have hsub : cursorPos - run.length = pre.length := by omega
  have hpre : inputValue.take (cursorPos - run.length) = pre := by
    rw [hsub]
    have h2 : inputValue.take pre.length =
        (inputValue.take cursorPos).take pre.length := by
      rw [List.take_take, Nat.min_eq_left (by omega)]
    rw [h2, ← hdecomp, List.take_left]
  simp only [insertSuggestionCore, hrun, if_pos hlen]
  rw [hpre, hsub]

/-- Witness for C3 at the spec's uniqueKey example. -/
theorem insertion_replaces_word_witness :
    insertSuggestionCore ("show cus".toList) 8 8 ("customer_id".toList)
        ["uniqueKey"] =
      ("show ".toList ++
        wrapSuggestion ("customer_id".toList) ["uniqueKey"] ++ [' '] ++
        ("show cus".toList).drop 8,
       ("show ".toList).length +
         (wrapSuggestion ("customer_id".toList) ["uniqueKey"]).length
         + 1) :=
  insertion_replaces_word ("show cus".toList) ("show ".toList)
    ("cus".toList) ("customer_id".toList) ["uniqueKey"] 8 (by decide)
    (by decide) (by decide) (by decide) (by decide)

end DS
